import Mathlib

/-!
Verification of the team-membership / invite core of the `teams` package
(Fastify + Prisma routes).  The persistence layer is modelled as an explicit
in-memory database value (`DB`); each route handler becomes a pure function
from the database and the request inputs to a response together with the
post-state.  JavaScript `Date` values become `Nat` timestamps, Prisma rows
become structures, and Prisma queries become list lookups.
-/

namespace Teams

structure UserRow where
  id : String
  email : Option String
  lastActiveTeamId : Option String
deriving DecidableEq

structure TeamRow where
  id : String
  name : String
  slug : String
deriving DecidableEq

structure MemberRow where
  teamId : String
  userId : String
  role : String
  createdAt : Nat
deriving DecidableEq

structure InviteRow where
  id : String
  token : String
  teamId : String
  maxUses : Nat
  usedCount : Nat
  allowedDomain : Option String
  createdByUserId : String
deriving DecidableEq

structure DB where
  users : List UserRow
  teams : List TeamRow
  members : List MemberRow
  invites : List InviteRow
deriving DecidableEq

/-- An error response: `reply.status(status).send({ error })`. -/
structure ErrResp where
  status : Nat
  error : String
deriving DecidableEq

instance {ε α : Type} [DecidableEq ε] [DecidableEq α] : DecidableEq (Except ε α) := fun x y =>
  match x, y with
  | .error a, .error b =>
    if h : a = b then .isTrue (by rw [h]) else .isFalse (by simp [h])
  | .ok a, .ok b =>
    if h : a = b then .isTrue (by rw [h]) else .isFalse (by simp [h])
  | .error _, .ok _ => .isFalse (by simp)
  | .ok _, .error _ => .isFalse (by simp)

/-- `prisma.team.findUnique({ where: { id } })`. -/
def findTeam (db : DB) (teamId : String) : Option TeamRow :=
  db.teams.find? (fun t => t.id == teamId)

/-- `prisma.teamMember.findUnique({ where: { teamId_userId } })`. -/
def findMember (db : DB) (teamId userId : String) : Option MemberRow :=
  db.members.find? (fun m => m.teamId == teamId && m.userId == userId)

/-- `prisma.user.findUnique({ where: { id } })`. -/
def findUserById (db : DB) (userId : String) : Option UserRow :=
  db.users.find? (fun u => u.id == userId)

/-- `prisma.user.findUnique({ where: { email } })`. -/
def findUserByEmail (db : DB) (email : String) : Option UserRow :=
  db.users.find? (fun u => u.email == some email)

/-- `prisma.teamInvite.findUnique({ where: { token } })`. -/
def findInviteByToken (db : DB) (token : String) : Option InviteRow :=
  db.invites.find? (fun i => i.token == token)

/-- `getRemainingUses` from src/src/routes/invites.ts:
`if (!maxUses) return null; return Math.max(maxUses - usedCount, 0);`.
Truncated `Nat` subtraction is exactly `Math.max(maxUses - usedCount, 0)`. -/
def getRemainingUses (maxUses usedCount : Nat) : Option Nat :=
  if maxUses = 0 then none else some (maxUses - usedCount)

/-- The spec's derived quantity, written from the spec's own words:
`remainingUses = maxUses == 0 ? null : max(maxUses - usedCount, 0)`,
with the subtraction and `max` taken over the integers. -/
def specRemainingUses (maxUses usedCount : Nat) : Option Nat :=
  if maxUses = 0 then none else some (Int.toNat (max ((maxUses : Int) - (usedCount : Int)) 0))

/-- The exhaustion test shared by the lookup and accept routes:
`remainingUses !== null && remainingUses <= 0`. -/
def inviteExhausted (maxUses usedCount : Nat) : Bool :=
  (getRemainingUses maxUses usedCount).any (fun r => decide (r ≤ 0))

/-- JavaScript `String.prototype.toLowerCase` restricted to ASCII, as a
structurally recursive function (the library `String.toLower` does the same
ASCII mapping but does not reduce in the kernel). -/
def strToLower (s : String) : String := ⟨s.data.map Char.toLower⟩

/-- JavaScript `String.prototype.split(sep)` for a one-character separator,
over the character list.  `split` on the empty string yields `[""]`. -/
def splitOnChar (sep : Char) : List Char → List (List Char)
  | [] => [[]]
  | c :: rest =>
    match splitOnChar sep rest with
    | [] => if c = sep then [[], []] else [[c]]
    | h :: t => if c = sep then [] :: h :: t else (c :: h) :: t

/-- `(email).split("@")[1]`: the segment between the first and the second
`'@'` of the string (or everything after the first `'@'` when there is only
one). -/
def emailDomainSeg (email : String) : Option String :=
  ((splitOnChar '@' email.data)[1]?).map (fun l => String.mk l)

/-- The domain gate of POST /invites/:token/accept:
`if (invite.allowedDomain) { const emailDomain = (user.email || "").split("@")[1]?.toLowerCase();
 if (!emailDomain || emailDomain !== invite.allowedDomain.toLowerCase()) ... }`.
Returns `true` when the request passes the gate.  An empty stored domain is
falsy in JavaScript, so it skips the check entirely. -/
def acceptDomainOk (allowedDomain : Option String) (email : Option String) : Bool :=
  match allowedDomain with
  | none => true
  | some dom =>
    if dom = "" then true
    else
      match emailDomainSeg (email.getD "") with
      | none => false
      | some seg => strToLower seg != "" && strToLower seg == strToLower dom

/-- Success payload of POST /invites/:token/accept. -/
structure AcceptOk where
  teamId : String
  teamName : String
  joined : Bool
  alreadyMember : Bool
  remainingUses : Option Nat
deriving DecidableEq

/-- POST /invites/:token/accept (src/src/routes/invites.ts, lines 128-197).
`token` is the output of `parseToken` on the raw path parameter (the
WHATWG-URL unwrapping happens before the logic modelled here and always
yields a trimmed string); `authUserId` is the verified id attached by
`requireAuth`; `now` is the insertion timestamp. -/
def acceptInvite (db : DB) (token : String) (authUserId : Option String) (now : Nat) :
    Except ErrResp AcceptOk × DB :=
  if token = "" then (.error ⟨400, "missing_token"⟩, db)
  else
    match authUserId with
    | none => (.error ⟨401, "missing_auth"⟩, db)
    | some uid =>
      match findInviteByToken db token with
      | none => (.error ⟨404, "invite_not_found"⟩, db)
      | some invite =>
        if inviteExhausted invite.maxUses invite.usedCount then
          (.error ⟨410, "invite_exhausted"⟩, db)
        else
          match findUserById db uid with
          | none => (.error ⟨401, "user_not_found"⟩, db)
          | some user =>
            if !acceptDomainOk invite.allowedDomain user.email then
              (.error ⟨403, "domain_restricted"⟩, db)
            else
              let existingMember := findMember db invite.teamId user.id
              let members1 :=
                if existingMember.isNone then
                  db.members ++ [⟨invite.teamId, user.id, "member", now⟩]
                else db.members
              let invites1 :=
                if existingMember.isNone && invite.maxUses > 0 then
                  db.invites.map (fun i =>
                    if i.id == invite.id then { i with usedCount := i.usedCount + 1 } else i)
                else db.invites
              let users1 := db.users.map (fun u =>
                if u.id == user.id then { u with lastActiveTeamId := some invite.teamId } else u)
              let nextRemaining := getRemainingUses invite.maxUses
                (invite.usedCount + (if invite.maxUses > 0 && existingMember.isNone then 1 else 0))
              (.ok { teamId := invite.teamId,
                     teamName := (findTeam db invite.teamId).elim "Team" (fun t => t.name),
                     joined := existingMember.isNone,
                     alreadyMember := existingMember.isSome,
                     remainingUses := nextRemaining },
               { db with members := members1, invites := invites1, users := users1 })

/-- JavaScript `String.prototype.trim`, as a structurally recursive
function over the character list. -/
def strTrim (s : String) : String :=
  ⟨((s.data.dropWhile Char.isWhitespace).reverse.dropWhile Char.isWhitespace).reverse⟩

def isDomainChar (c : Char) : Bool :=
  (('a' ≤ c) && (c ≤ 'z')) || (('0' ≤ c) && (c ≤ '9')) || c == '.' || c == '-'

def isLowerAlpha (c : Char) : Bool := ('a' ≤ c) && (c ≤ 'z')

/-- The invite-domain pattern `/^(?!-)[a-z0-9.-]+\.[a-z]{2,}$/i` applied to an
already-lowercased string: the string does not start with `'-'`, ends in a
dot followed by at least two letters, and everything before that final dot is
a non-empty run of characters from `[a-z0-9.-]`.  (The regex engine can only
match by taking `\.[a-z]{2,}$` at the last dot, since no dot may follow it.) -/
def domainPatternTest (s : String) : Bool :=
  match s.data with
  | [] => false
  | c :: _ =>
    c != '-' &&
    (let parts := splitOnChar '.' s.data
     decide (2 ≤ parts.length) &&
     (let tld := parts.getLastD []
      decide (2 ≤ tld.length) && tld.all isLowerAlpha) &&
     (let pre := List.intercalate ['.'] parts.dropLast
      pre != ([] : List Char) && pre.all isDomainChar))

/-- Result of `normalizeDomain` in src/src/routes/invites.ts: `null`, the
string sentinel `"invalid"`, or the trimmed lowercased domain. -/
inductive NormalizedDomain
  | nullDomain
  | invalidDomain
  | validDomain (value : String)
deriving DecidableEq

/-- `normalizeDomain` from src/src/routes/invites.ts.  `none` input covers
both an absent field and a non-string value (`typeof value !== "string"`). -/
def normalizeDomain (value : Option String) : NormalizedDomain :=
  match value with
  | none => .nullDomain
  | some s =>
    let trimmed := strToLower (strTrim s)
    if trimmed = "" then .nullDomain
    else if domainPatternTest trimmed then .validDomain trimmed
    else .invalidDomain

/-- Success payload of POST /teams/:teamId/invites (the response also carries
a `path` string derived from the token by URI-escaping; that presentation
field is not modelled). -/
structure IssueOk where
  token : String
  teamId : String
  allowedDomain : Option String
  maxUses : Nat
  remainingUses : Option Nat
deriving DecidableEq

/-- POST /teams/:teamId/invites (handler body, src/src/routes/invites.ts,
lines 53-96).  `teamCtx` is the team attached by the team guard (the guard
lives in guards/team-guard.js, outside src/, and resolves the team from the
request context, not from the path parameter — hence the handler's own
mismatch check); `maxUsesInput` is `body.maxUses` restricted to integral
finite numbers, `none` covering absent, non-numeric and non-finite input,
which the code all treats as 0; `token` stands for the generated
`crypto.randomBytes(24).toString("base64url")` value and `newId` for the row
id chosen by the database; `actingUserId` is the verified user id
(`request.auth?.user?.id ?? request.user?.id ?? ""`). -/
def issueInvite (db : DB) (paramsTeamIdRaw : String) (teamCtx : Option TeamRow)
    (actingUserId : String) (maxUsesInput : Option Int) (allowedDomainInput : Option String)
    (token newId : String) : Except ErrResp IssueOk × DB :=
  let paramsTeamId := strTrim paramsTeamIdRaw
  match teamCtx with
  | none => (.error ⟨400, "team_required"⟩, db)
  | some team =>
    if paramsTeamId != "" && team.id != paramsTeamId then (.error ⟨403, "forbidden"⟩, db)
    else
      let maxUses : Nat :=
        match maxUsesInput with
        | some n => if 0 ≤ n then min n.toNat 10000 else 0
        | none => 0
      let nd := normalizeDomain allowedDomainInput
      if nd = .invalidDomain then (.error ⟨400, "invalid_domain"⟩, db)
      else
        let allowed : Option String := match nd with | .validDomain d => some d | _ => none
        let created : InviteRow := ⟨newId, token, team.id, maxUses, 0, allowed, actingUserId⟩
        (.ok { token := created.token, teamId := created.teamId,
               allowedDomain := created.allowedDomain, maxUses := created.maxUses,
               remainingUses := getRemainingUses created.maxUses created.usedCount },
         { db with invites := db.invites ++ [created] })

/-- Little-endian decimal digits of `n`, with explicit fuel (`n` itself
suffices) so the definition reduces in the kernel. -/
def natDigitsAux : Nat → Nat → List Nat
  | 0, _ => []
  | _ + 1, 0 => []
  | fuel + 1, n + 1 => ((n + 1) % 10) :: natDigitsAux fuel ((n + 1) / 10)

def natDigitChar : Nat → Char
  | 0 => '0' | 1 => '1' | 2 => '2' | 3 => '3' | 4 => '4'
  | 5 => '5' | 6 => '6' | 7 => '7' | 8 => '8' | _ => '9'

/-- Decimal rendering of a natural number (JavaScript template `${suffix}`). -/
def natToStr (n : Nat) : String :=
  if n = 0 then "0" else ⟨((natDigitsAux n n).reverse).map natDigitChar⟩

/-- The k-th candidate tried by `ensureUniqueSlug`: the root itself, then
`root-1`, `root-2`, ... -/
def slugCandidate (root : String) : Nat → String
  | 0 => root
  | k + 1 => root ++ "-" ++ natToStr (k + 1)

def slugSearch (used : List String) (root : String) : Nat → Nat → String
  | 0, i => slugCandidate root i
  | fuel + 1, i =>
    if used.contains (slugCandidate root i) then slugSearch used root fuel (i + 1)
    else slugCandidate root i

/-- `ensureUniqueSlug` from src/unnamed/part_000 (routes/teams.js, lines
293-302): try `base` (falling back to the literal `"team"` when empty, since
`""` is falsy), then `base-1`, `base-2`, ... until a candidate is free.
`used` is the set of slugs the `prisma.team.findUnique({ where: { slug } })`
existence check sees.  The source's unbounded `while` loop is run with
`used.length + 1` iterations of fuel; the pigeonhole argument below shows
this always reaches the first unused candidate, so the fuel never runs out. -/
def ensureUniqueSlug (used : List String) (base : String) : String :=
  slugSearch used (if base = "" then "team" else base) (used.length + 1) 0

/-- Modelled from the spec: the Role Authority `createTeamRoleGuard`
(guards/team-role.js is not under src/).  Spec §4.2: a pure decision
`authorize(actingRole, requiredRoles) -> allow|deny` against an explicit
allow-set per endpoint. -/
def roleAllowed (allowed : List String) (role : String) : Bool :=
  allowed.contains role

/-- POST /teams (src/unnamed/part_000, routes/teams.js lines 323-432),
restricted to the membership core: the name check, the user resolution, the
slug allocation and the create transaction.   The out-of-scope field
validations (currency, VAT, export preset, country, timezone, ...) can only
reject the request before any mutation and are omitted.  `slugBase` is the
output of `normalizeTeamSlug(slugify(body.slug || name))` (utils outside
src/), `newTeamId` the row id chosen by the database, `now` the timestamp
shared by all three writes of the transaction. -/
def createTeam (db : DB) (authUserId : Option String) (nameRaw slugBase newTeamId : String)
    (now : Nat) : Except ErrResp TeamRow × DB :=
  let name := strTrim nameRaw
  if name = "" then (.error ⟨400, "missing_name"⟩, db)
  else
    match authUserId with
    | none => (.error ⟨401, "missing_auth"⟩, db)
    | some uid =>
      match findUserById db uid with
      | none => (.error ⟨404, "user_not_found"⟩, db)
      | some user =>
        let slug := ensureUniqueSlug (db.teams.map (fun t => t.slug)) slugBase
        let created : TeamRow := ⟨newTeamId, name, slug⟩
        (.ok created,
         { db with
             teams := db.teams ++ [created],
             members := db.members ++ [⟨created.id, user.id, "owner", now⟩],
             users := db.users.map (fun u =>
               if u.id == user.id then { u with lastActiveTeamId := some created.id } else u) })

/-- POST /teams/:teamId/users (part_000 lines 556-594).  The guard chain
(`requireAuth`, `requireTeam`, `requireTeamRole(["owner","admin"])`) is
modelled from the spec since the guard files are outside src/: `teamId` is
the team id the guard resolved, `actingUserId` the verified user id. -/
def addMember (db : DB) (teamId actingUserId : String) (emailRaw : String) (now : Nat) :
    Except ErrResp MemberRow × DB :=
  match findTeam db teamId with
  | none => (.error ⟨404, "team_not_found"⟩, db)
  | some team =>
    match findMember db team.id actingUserId with
    | none => (.error ⟨403, "not_a_member"⟩, db)
    | some actingMember =>
      if !roleAllowed ["owner", "admin"] actingMember.role then (.error ⟨403, "forbidden"⟩, db)
      else
        let email := strToLower (strTrim emailRaw)
        if email = "" then (.error ⟨400, "missing_email"⟩, db)
        else
          match findUserByEmail db email with
          | none => (.error ⟨404, "user_not_found"⟩, db)
          | some user =>
            match findMember db team.id user.id with
            | some _ => (.error ⟨409, "already_member"⟩, db)
            | none =>
              let row : MemberRow := ⟨team.id, user.id, "member", now⟩
              (.ok row, { db with members := db.members ++ [row] })

/-- Modelled from the spec: `parseTeamRoleInput` (utils/team-utils.js is not
under src/).  Its unit tests in src/unnamed/part_000 pin the behavior used
here: a valid role string is accepted case-insensitively ("ADMIN" ↦ "admin"),
an empty or absent value yields no role, anything else is `invalid_role`. -/
def parseTeamRoleInput (input : Option String) : Except String (Option String) :=
  match input with
  | none => .ok none
  | some s =>
    let t := strToLower s
    if t = "" then .ok none
    else if t = "owner" ∨ t = "admin" ∨ t = "member" then .ok (some t)
    else .error "invalid_role"

/-- PATCH /teams/:teamId/users/:userId (part_000 lines 596-652), with the
guard chain modelled from the spec as in `addMember`; `actingMember` below is
the guard-attached `request.teamMember`. -/
def changeRole (db : DB) (teamId actingUserId : String) (roleInput : Option String)
    (targetUserIdRaw : String) : Except ErrResp MemberRow × DB :=
  match findTeam db teamId with
  | none => (.error ⟨404, "team_not_found"⟩, db)
  | some team =>
    match findMember db team.id actingUserId with
    | none => (.error ⟨403, "not_a_member"⟩, db)
    | some actingMember =>
      if !roleAllowed ["owner", "admin"] actingMember.role then (.error ⟨403, "forbidden"⟩, db)
      else
        match parseTeamRoleInput roleInput with
        | .error e => (.error ⟨400, e⟩, db)
        | .ok none => (.error ⟨400, "missing_role"⟩, db)
        | .ok (some newRole) =>
          let targetUserId := strTrim targetUserIdRaw
          if targetUserId = "" then (.error ⟨400, "missing_user_id"⟩, db)
          else
            match findMember db team.id targetUserId with
            | none => (.error ⟨404, "member_not_found"⟩, db)
            | some targetMember =>
              if targetMember.role = "owner" then (.error ⟨403, "owner_locked"⟩, db)
              else if newRole = "owner" ∧ actingMember.role ≠ "owner" then
                (.error ⟨403, "owner_only"⟩, db)
              else
                (.ok { targetMember with role := newRole },
                 { db with members := db.members.map (fun m =>
                     if m.teamId == team.id && m.userId == targetUserId then
                       { m with role := newRole } else m) })

structure RemoveOk where
  removedUserId : String
  promotedUserId : Option String
deriving DecidableEq

/-- `prisma.teamMember.count({ where: { teamId, role: { in: ["owner","admin"] },
NOT: { userId: exceptUserId } } })`. -/
def countOtherAdminOwners (members : List MemberRow) (teamId exceptUserId : String) : Nat :=
  (members.filter (fun m =>
    m.teamId == teamId && (m.role == "owner" || m.role == "admin") &&
      m.userId != exceptUserId)).length

/-- `tx.teamMember.findFirst({ where: ..., orderBy: { createdAt: "asc" } })`:
the row with the least `createdAt`, taking the first in storage order among
ties. -/
def minByCreatedAt : List MemberRow → Option MemberRow
  | [] => none
  | m :: ms =>
    match minByCreatedAt ms with
    | none => some m
    | some m2 => if m.createdAt ≤ m2.createdAt then some m else some m2

/-- DELETE /teams/:teamId/users/:userId (part_000 lines 654-728), with the
guard chain modelled from the spec as in `addMember`; the `isSelf` test uses
the guard-attached verified user id (`request.user?.id`). -/
def removeMember (db : DB) (teamId actingUserId : String) (targetUserIdRaw : String) :
    Except ErrResp RemoveOk × DB :=
  match findTeam db teamId with
  | none => (.error ⟨404, "team_not_found"⟩, db)
  | some team =>
    match findMember db team.id actingUserId with
    | none => (.error ⟨403, "not_a_member"⟩, db)
    | some actingMember =>
      if !roleAllowed ["owner", "admin"] actingMember.role then (.error ⟨403, "forbidden"⟩, db)
      else
        let targetUserId := strTrim targetUserIdRaw
        if targetUserId = "" then (.error ⟨400, "missing_user_id"⟩, db)
        else
          match findMember db team.id targetUserId with
          | none => (.error ⟨404, "member_not_found"⟩, db)
          | some targetMember =>
            let isSelf := targetMember.userId == actingUserId
            if targetMember.role == "owner" && !isSelf then (.error ⟨403, "owner_locked"⟩, db)
            else if isSelf && countOtherAdminOwners db.members team.id targetMember.userId == 0 then
              (.error ⟨400, "last_admin_owner"⟩, db)
            else
              let members1 := db.members.filter (fun m =>
                !(m.teamId == team.id && m.userId == targetUserId))
              let step : Option String × List MemberRow :=
                if isSelf && targetMember.role == "owner" then
                  if (members1.filter (fun m =>
                      m.teamId == team.id && m.role == "owner")).length = 0 then
                    match minByCreatedAt (members1.filter (fun m =>
                        m.teamId == team.id && m.role == "admin")) with
                    | some nextAdmin =>
                      (some nextAdmin.userId,
                       members1.map (fun m =>
                         if m.teamId == team.id && m.userId == nextAdmin.userId then
                           { m with role := "owner" } else m))
                    | none => (none, members1)
                  else (none, members1)
                else (none, members1)
              (.ok ⟨targetMember.userId, step.1⟩, { db with members := step.2 })

/-- The member list produced by the succession transaction of
DELETE /teams/:teamId/users/:userId when it deletes `removedUserId` and
promotes `promotedUserId`: the removed row is filtered out and the promoted
member's role is set to `"owner"`. -/
def promoteAfterRemoval (members : List MemberRow) (teamId removedUserId promotedUserId : String) :
    List MemberRow :=
  (members.filter (fun m => !(m.teamId == teamId && m.userId == removedUserId))).map
    (fun m => if m.teamId == teamId && m.userId == promotedUserId then
        { m with role := "owner" } else m)

/-- C9's wording of the domain comparison: the substring of the email after
the FIRST `'@'` — everything that follows it. -/
def substringAfterFirstAt (email : String) : Option String :=
  match splitOnChar '@' email.data with
  | [] => none
  | [_] => none
  | _ :: rest => some ⟨List.intercalate ['@'] rest⟩

/-- One completed operation of the core, with the inputs each route handler
receives (timestamps and database-chosen ids made explicit). -/
inductive Op
  | createTeam (authUserId : Option String) (nameRaw slugBase newTeamId : String) (now : Nat)
  | addMember (teamId actingUserId emailRaw : String) (now : Nat)
  | changeRole (teamId actingUserId : String) (roleInput : Option String)
      (targetUserIdRaw : String)
  | removeMember (teamId actingUserId targetUserIdRaw : String)
  | acceptInvite (token : String) (authUserId : Option String) (now : Nat)

/-- The database state after a core operation completes (on an error
response the state is unchanged). -/
def applyOp (db : DB) : Op → DB
  | .createTeam auth nameRaw slugBase newTeamId now =>
    (createTeam db auth nameRaw slugBase newTeamId now).2
  | .addMember teamId acting email now => (addMember db teamId acting email now).2
  | .changeRole teamId acting roleInput target => (changeRole db teamId acting roleInput target).2
  | .removeMember teamId acting target => (removeMember db teamId acting target).2
  | .acceptInvite token auth now => (acceptInvite db token auth now).2

/-- The database picks a fresh row id for a created team (Prisma `uuid`
default); the other operations need nothing from the environment. -/
def WfOp (db : DB) : Op → Prop
  | .createTeam _ _ _ newTeamId _ => ∀ t ∈ db.teams, t.id ≠ newTeamId
  | _ => True

/-- Every team row has an `owner` member. -/
def OwnerExists (db : DB) : Prop :=
  ∀ t ∈ db.teams, ∃ m ∈ db.members, m.teamId = t.id ∧ m.role = "owner"

/-- Every membership row refers to an existing team row. -/
def MemberTeamRef (db : DB) : Prop :=
  ∀ m ∈ db.members, ∃ t ∈ db.teams, t.id = m.teamId

/-- Every invite row refers to an existing team row. -/
def InviteTeamRef (db : DB) : Prop :=
  ∀ i ∈ db.invites, ∃ t ∈ db.teams, t.id = i.teamId

/-- No two rows of a member list share the `(teamId, userId)` key. -/
def KeyUniqueList (l : List MemberRow) : Prop :=
  ∀ m1 ∈ l, ∀ m2 ∈ l, m1.teamId = m2.teamId → m1.userId = m2.userId → m1 = m2

/-- `@@unique([teamId, userId])` on TeamMember. -/
def MemberKeyUnique (db : DB) : Prop :=
  KeyUniqueList db.members

/-- The inductive state invariant: every team has an owner and the
referential constraints of the schema hold. -/
def Inv (db : DB) : Prop :=
  OwnerExists db ∧ MemberTeamRef db ∧ InviteTeamRef db ∧ MemberKeyUnique db

/-- The property C1 states: a team with at least one member has at least one
member whose role is `owner` or `admin`. -/
def AdminOwnerInvariant (db : DB) : Prop :=
  ∀ teamId : String, (∃ m ∈ db.members, m.teamId = teamId) →
    ∃ m ∈ db.members, m.teamId = teamId ∧ (m.role = "owner" ∨ m.role = "admin")

/-- A small concrete database used by the witnesses and counterexamples:
one main team `t1` (sole owner `u1`, admins `u3` (created first) and `u2`,
member `u4`), a second team `t2` whose only member is its owner `u4`, an
open invite `tok` with `maxUses = 2`, and a domain-restricted unlimited
invite `tokd` for `corp.com`. -/
def sampleDb : DB :=
  { users :=
      [⟨"u1", some "ann@corp.com", none⟩,
       ⟨"u2", some "bob@corp.com", none⟩,
       ⟨"u3", some "cara@corp.com", none⟩,
       ⟨"u4", some "dan@corp.com", none⟩,
       ⟨"u5", some "eve@corp.com", none⟩,
       ⟨"u6", some "x@corp.com@evil", none⟩],
    teams := [⟨"t1", "One", "one"⟩, ⟨"t2", "Two", "two"⟩],
    members :=
      [⟨"t1", "u1", "owner", 0⟩,
       ⟨"t1", "u2", "admin", 2⟩,
       ⟨"t1", "u3", "admin", 1⟩,
       ⟨"t1", "u4", "member", 3⟩,
       ⟨"t2", "u4", "owner", 0⟩],
    invites :=
      [⟨"i1", "tok", "t1", 2, 0, none, "u1"⟩,
       ⟨"i2", "tokd", "t1", 0, 0, some "corp.com", "u1"⟩] }

/-- Value of a little-endian decimal digit list (proof device for the
injectivity of `natToStr`). -/
def digitsVal : List Nat → Nat
  | [] => 0
  | d :: ds => d + 10 * digitsVal ds


theorem getRemainingUses_eq_spec (maxUses usedCount : Nat) :
    getRemainingUses maxUses usedCount = specRemainingUses maxUses usedCount := by
  unfold getRemainingUses specRemainingUses
  rcases Nat.eq_zero_or_pos maxUses with h | h
  · simp [h]
  · have hne : maxUses ≠ 0 := Nat.pos_iff_ne_zero.mp h
    simp only [if_neg hne, Option.some.injEq]
    omega

/-- C3: accepting a valid, non-exhausted invite as a user who is not yet a
member of its team inserts a `member`-role membership row, increments the
invite's `usedCount` by exactly 1 precisely when `maxUses > 0`, sets the
user's `lastActiveTeamId` to the invite's team, and returns `joined = true`,
`alreadyMember = false` and the spec's `remainingUses` formula evaluated on
the post-increment `usedCount`. -/
theorem acceptInvite_joins_new_member (db : DB) (token uid : String)
    (invite : InviteRow) (user : UserRow) (now : Nat)
    (htok : token ≠ "")
    (hinv : findInviteByToken db token = some invite)
    (hnex : inviteExhausted invite.maxUses invite.usedCount = false)
    (huser : findUserById db uid = some user)
    (hdom : acceptDomainOk invite.allowedDomain user.email = true)
    (hmem : findMember db invite.teamId user.id = none) :
    acceptInvite db token (some uid) now =
      (.ok { teamId := invite.teamId,
             teamName := (findTeam db invite.teamId).elim "Team" (fun t => t.name),
             joined := true, alreadyMember := false,
             remainingUses := specRemainingUses invite.maxUses
               (invite.usedCount + (if 0 < invite.maxUses then 1 else 0)) },
       { db with
           members := db.members ++ [⟨invite.teamId, user.id, "member", now⟩],
           invites :=
             if 0 < invite.maxUses then
               db.invites.map (fun i =>
                 if i.id == invite.id then { i with usedCount := i.usedCount + 1 } else i)
             else db.invites,
           users := db.users.map (fun u =>
             if u.id == user.id then { u with lastActiveTeamId := some invite.teamId } else u) }) := by
  simp only [acceptInvite, if_neg htok, hinv, hnex, huser, hdom, hmem,
    Bool.false_eq_true, if_false, Option.isNone_none, Bool.not_true, Option.isSome_none,
    ← getRemainingUses_eq_spec]
  by_cases hmu : 0 < invite.maxUses <;>
    simp [hmu]

/-- C5: accepting a valid, non-exhausted invite as an existing member of its
team returns `joined = false`, `alreadyMember = true`, leaves the membership
rows and all invites (in particular the invite's `usedCount`) unchanged, and
still sets the user's `lastActiveTeamId` to the invite's team. -/
theorem acceptInvite_already_member (db : DB) (token uid : String)
    (invite : InviteRow) (user : UserRow) (m : MemberRow) (now : Nat)
    (htok : token ≠ "")
    (hinv : findInviteByToken db token = some invite)
    (hnex : inviteExhausted invite.maxUses invite.usedCount = false)
    (huser : findUserById db uid = some user)
    (hdom : acceptDomainOk invite.allowedDomain user.email = true)
    (hmem : findMember db invite.teamId user.id = some m) :
    acceptInvite db token (some uid) now =
      (.ok { teamId := invite.teamId,
             teamName := (findTeam db invite.teamId).elim "Team" (fun t => t.name),
             joined := false, alreadyMember := true,
             remainingUses := getRemainingUses invite.maxUses invite.usedCount },
       { db with
           users := db.users.map (fun u =>
             if u.id == user.id then { u with lastActiveTeamId := some invite.teamId } else u) }) := by
  simp [acceptInvite, if_neg htok, hinv, hnex, huser, hdom, hmem]

/-- C6 (amended): when the verified acting user id references no user
record, accepting a valid, non-exhausted invite fails with error kind
`user_not_found` and HTTP status 401 (the code uses 401 here, not the 404
the claim states), mutating nothing. -/
theorem acceptInvite_stale_user_401 (db : DB) (token uid : String)
    (invite : InviteRow) (now : Nat)
    (htok : token ≠ "")
    (hinv : findInviteByToken db token = some invite)
    (hnex : inviteExhausted invite.maxUses invite.usedCount = false)
    (huser : findUserById db uid = none) :
    acceptInvite db token (some uid) now = (.error ⟨401, "user_not_found"⟩, db) := by
  simp [acceptInvite, if_neg htok, hinv, hnex, huser]

/-- C10: when the `:teamId` path parameter of the invite-issuance route is
non-empty and differs from the id of the guard-resolved team, the handler
fails with HTTP status 403 and error kind `forbidden`, creating no invite. -/
theorem issueInvite_team_mismatch_forbidden (db : DB) (paramsTeamIdRaw : String)
    (team : TeamRow) (actingUserId : String) (maxUsesInput : Option Int)
    (allowedDomainInput : Option String) (token newId : String)
    (hne : strTrim paramsTeamIdRaw ≠ "")
    (hmi : team.id ≠ strTrim paramsTeamIdRaw) :
    issueInvite db paramsTeamIdRaw (some team) actingUserId maxUsesInput allowedDomainInput
        token newId = (.error ⟨403, "forbidden"⟩, db) := by
  simp [issueInvite, hne, hmi]

theorem findMember_props {db : DB} {teamId uid : String} {m : MemberRow}
    (h : findMember db teamId uid = some m) :
    m ∈ db.members ∧ m.teamId = teamId ∧ m.userId = uid := by
  have hp := List.find?_some h
  simp only [Bool.and_eq_true, beq_iff_eq] at hp
  exact ⟨List.mem_of_find?_eq_some h, hp.1, hp.2⟩

theorem minByCreatedAt_mem : ∀ {l : List MemberRow} {x : MemberRow},
    minByCreatedAt l = some x → x ∈ l := by
  intro l
  induction l with
  | nil => intro x h; simp [minByCreatedAt] at h
  | cons m ms ih =>
    intro x h
    unfold minByCreatedAt at h
    cases hms : minByCreatedAt ms with
    | none => rw [hms] at h; simp at h; simp [h]
    | some m2 =>
      rw [hms] at h
      by_cases hle : m.createdAt ≤ m2.createdAt <;> simp [hle] at h
      · simp [h]
      · exact List.mem_cons_of_mem _ (h ▸ ih hms)

theorem minByCreatedAt_eq_of_strict_min {a : MemberRow} : ∀ {l : List MemberRow},
    a ∈ l → (∀ b ∈ l, b ≠ a → a.createdAt < b.createdAt) → minByCreatedAt l = some a := by
  intro l
  induction l with
  | nil => intro hmem _; simp at hmem
  | cons m ms ih =>
    intro hmem hmin
    unfold minByCreatedAt
    rcases List.mem_cons.mp hmem with rfl | hmem'
    · cases hms : minByCreatedAt ms with
      | none => rfl
      | some m2 =>
        have hm2 : m2 ∈ ms := minByCreatedAt_mem hms
        by_cases hm2a : m2 = a
        · subst hm2a; simp
        · have hlt := hmin m2 (List.mem_cons_of_mem _ hm2) hm2a
          simp [Nat.le_of_lt hlt]
    · have hrec := ih hmem' (fun b hb hba => hmin b (List.mem_cons_of_mem _ hb) hba)
      rw [hrec]
      by_cases hma : m = a
      · subst hma; simp
      · have hlt := hmin m (List.mem_cons_self m ms) hma
        simp [Nat.not_le.mpr hlt]

/-- C4: a member self-removal in a team where no other member holds role
`owner` or `admin` fails with error kind `last_admin_owner` and HTTP status
400 and performs no mutation (the membership rows, and hence every member's
role, are unchanged). -/
theorem removeMember_last_admin_owner (db : DB) (teamId uid targetUserIdRaw : String)
    (team : TeamRow) (tm : MemberRow)
    (hteam : findTeam db teamId = some team)
    (hacting : findMember db team.id uid = some tm)
    (hrole : tm.role = "owner" ∨ tm.role = "admin")
    (htrim : strTrim targetUserIdRaw = uid)
    (hne : uid ≠ "")
    (hothers : ∀ m ∈ db.members, m.teamId = team.id →
       (m.role = "owner" ∨ m.role = "admin") → m.userId = tm.userId) :
    removeMember db teamId uid targetUserIdRaw = (.error ⟨400, "last_admin_owner"⟩, db) := by
  obtain ⟨hmemtm, hteamtm, huidtm⟩ := findMember_props hacting
  have hcount : countOtherAdminOwners db.members team.id uid = 0 := by
    unfold countOtherAdminOwners
    rw [List.length_eq_zero, List.filter_eq_nil_iff]
    intro m hm
    simp only [Bool.and_eq_true, Bool.or_eq_true, beq_iff_eq, bne_iff_ne, ne_eq, not_and,
      Decidable.not_not]
    intro h
    exact huidtm ▸ hothers m hm h.1 h.2
  have hallow : roleAllowed ["owner", "admin"] tm.role = true := by
    rcases hrole with h | h <;> simp [roleAllowed, h]
  simp [removeMember, hteam, hacting, hallow, htrim, hne, huidtm, hcount]

/-- C2: when a team's sole owner self-removes while an admin member
remains, `removeMember` deletes the owner's membership row and promotes
exactly the remaining admin with the smallest `createdAt` (hypothesis
`hamin`: `a` is the strictly earliest-created admin) to `owner`, returning
that member's id as `promotedUserId`; every other member's row is untouched. -/
theorem removeMember_sole_owner_promotes (db : DB) (teamId uid targetUserIdRaw : String)
    (team : TeamRow) (tm a : MemberRow)
    (huniq : MemberKeyUnique db)
    (hteam : findTeam db teamId = some team)
    (hacting : findMember db team.id uid = some tm)
    (howner : tm.role = "owner")
    (htrim : strTrim targetUserIdRaw = uid)
    (hne : uid ≠ "")
    (hsole : ∀ m ∈ db.members, m.teamId = team.id → m.role = "owner" → m.userId = uid)
    (ha : a ∈ db.members) (hateam : a.teamId = team.id) (harole : a.role = "admin")
    (hamin : ∀ b ∈ db.members, b.teamId = team.id → b.role = "admin" →
       b = a ∨ a.createdAt < b.createdAt) :
    removeMember db teamId uid targetUserIdRaw =
      (.ok ⟨uid, some a.userId⟩,
       { db with members := promoteAfterRemoval db.members team.id uid a.userId }) ∧
    { a with role := "owner" } ∈ promoteAfterRemoval db.members team.id uid a.userId ∧
    ∀ m ∈ db.members, m ≠ tm → m ≠ a →
      m ∈ promoteAfterRemoval db.members team.id uid a.userId := by
  obtain ⟨hmemtm, hteamtm, huidtm⟩ := findMember_props hacting
  have hauid : a.userId ≠ uid := by
    intro he
    have haeq : a = tm := huniq a ha tm hmemtm (hateam.trans hteamtm.symm) (he.trans huidtm.symm)
    rw [haeq, howner] at harole
    exact absurd harole (by decide)
  have hallow : roleAllowed ["owner", "admin"] tm.role = true := by simp [roleAllowed, howner]
  have hain1 : a ∈ db.members.filter (fun m => !(m.teamId == team.id && m.userId == uid)) := by
    refine List.mem_filter.mpr ⟨ha, ?_⟩
    simp [hauid]
  have hcount : countOtherAdminOwners db.members team.id uid ≠ 0 := by
    unfold countOtherAdminOwners
    intro hlen
    rw [List.length_eq_zero, List.filter_eq_nil_iff] at hlen
    exact hlen a ha (by simp [hateam, harole, hauid])
  have howner_count :
      ((db.members.filter (fun m => !(m.teamId == team.id && m.userId == uid))).filter
        (fun m => m.teamId == team.id && m.role == "owner")).length = 0 := by
    rw [List.length_eq_zero, List.filter_eq_nil_iff]
    intro m hm
    obtain ⟨hm0, hm1⟩ := List.mem_filter.mp hm
    simp only [Bool.and_eq_true, beq_iff_eq, not_and]
    intro hmt hmr
    have := hsole m hm0 hmt hmr
    simp [hmt, this] at hm1
  have hadmins :
      minByCreatedAt ((db.members.filter (fun m => !(m.teamId == team.id && m.userId == uid))).filter
        (fun m => m.teamId == team.id && m.role == "admin")) = some a := by
    apply minByCreatedAt_eq_of_strict_min
    · exact List.mem_filter.mpr ⟨hain1, by simp [hateam, harole]⟩
    · intro b hb hba
      obtain ⟨hb1, hb2⟩ := List.mem_filter.mp hb
      obtain ⟨hbmem, _⟩ := List.mem_filter.mp hb1
      simp only [Bool.and_eq_true, beq_iff_eq] at hb2
      rcases hamin b hbmem hb2.1 hb2.2 with he | hlt
      · exact absurd he hba
      · exact hlt
  have hc2 : (countOtherAdminOwners db.members team.id uid == 0) = false := by
    rw [beq_eq_false_iff_ne]; exact hcount
  refine ⟨?_, ?_, ?_⟩
  · simp only [removeMember, hteam, hacting, htrim]
    rw [if_neg hne]
    simp only [hallow, Bool.not_true, Bool.false_eq_true, if_false, huidtm, beq_self_eq_true,
      Bool.and_false, Bool.true_and, hc2, howner, Bool.and_true]
    have hra : roleAllowed ["owner", "admin"] "owner" = true := rfl
    simp only [hra, Bool.not_true, Bool.false_eq_true, if_false, if_true]
    rw [if_pos howner_count, hadmins]
    simp only [promoteAfterRemoval]
  · unfold promoteAfterRemoval
    refine List.mem_map.mpr ⟨a, hain1, ?_⟩
    simp [hateam]
  · intro m hm hmtm hma
    unfold promoteAfterRemoval
    have hm1 : m ∈ db.members.filter (fun m => !(m.teamId == team.id && m.userId == uid)) := by
      refine List.mem_filter.mpr ⟨hm, ?_⟩
      simp only [Bool.not_eq_true', Bool.and_eq_false_iff, beq_eq_false_iff_ne, ne_eq]
      by_cases hmt : m.teamId = team.id
      · right
        intro hmu
        exact hmtm (huniq m hm tm hmemtm (hmt.trans hteamtm.symm) (hmu.trans huidtm.symm))
      · left; exact hmt
    refine List.mem_map.mpr ⟨m, hm1, ?_⟩
    have : ¬(m.teamId = team.id ∧ m.userId = a.userId) := by
      rintro ⟨hmt, hmu⟩
      exact hma (huniq m hm a ha (hmt.trans hateam.symm) hmu)
    by_cases hmt : m.teamId = team.id
    · have hmu : m.userId ≠ a.userId := fun hmu => this ⟨hmt, hmu⟩
      simp [hmu]
    · simp [hmt]

/-- C7: a role-change request against a missing membership fails
`member_not_found`; against an existing membership it fails `owner_locked`
when the target currently holds `owner`, fails `owner_only` when the
requested role is `owner` but the acting member is not an owner, and
otherwise updates the target membership's role to the requested role. -/
theorem changeRole_cases (db : DB) (teamId uid : String) (roleInput : Option String)
    (targetUserIdRaw : String) (team : TeamRow) (actingMember : MemberRow) (newRole : String)
    (hteam : findTeam db teamId = some team)
    (hacting : findMember db team.id uid = some actingMember)
    (hallow : actingMember.role = "owner" ∨ actingMember.role = "admin")
    (hparse : parseTeamRoleInput roleInput = .ok (some newRole))
    (hne : strTrim targetUserIdRaw ≠ "") :
    (findMember db team.id (strTrim targetUserIdRaw) = none →
       changeRole db teamId uid roleInput targetUserIdRaw =
         (.error ⟨404, "member_not_found"⟩, db)) ∧
    (∀ targetMember, findMember db team.id (strTrim targetUserIdRaw) = some targetMember →
       (targetMember.role = "owner" →
          changeRole db teamId uid roleInput targetUserIdRaw =
            (.error ⟨403, "owner_locked"⟩, db)) ∧
       (targetMember.role ≠ "owner" → newRole = "owner" → actingMember.role ≠ "owner" →
          changeRole db teamId uid roleInput targetUserIdRaw =
            (.error ⟨403, "owner_only"⟩, db)) ∧
       (targetMember.role ≠ "owner" → (newRole = "owner" → actingMember.role = "owner") →
          changeRole db teamId uid roleInput targetUserIdRaw =
            (.ok { targetMember with role := newRole },
             { db with members := db.members.map (fun m =>
                 if m.teamId == team.id && m.userId == strTrim targetUserIdRaw then
                   { m with role := newRole } else m) }))) := by
  have hra : roleAllowed ["owner", "admin"] actingMember.role = true := by
    rcases hallow with h | h <;> simp [roleAllowed, h]
  refine ⟨?_, ?_⟩
  · intro hnone
    simp [changeRole, hteam, hacting, hra, hparse, hne, hnone]
  · intro targetMember htm
    refine ⟨?_, ?_, ?_⟩
    · intro hlk
      simp [changeRole, hteam, hacting, hra, hparse, hne, htm, hlk]
    · intro hnlk hnr har
      simp [changeRole, hteam, hacting, hra, hparse, hne, htm, hnlk, hnr, har]
    · intro hnlk himp
      by_cases hnr : newRole = "owner"
      · have har := himp hnr
        have hra2 : roleAllowed ["owner", "admin"] "owner" = true := rfl
        simp [changeRole, hteam, hacting, hra, hra2, hparse, hne, htm, hnlk, hnr, har]
      · simp [changeRole, hteam, hacting, hra, hparse, hne, htm, hnlk, hnr]


theorem acceptDomainOk_false_iff (dom : String) (email : Option String) (hne : dom ≠ "") :
    (acceptDomainOk (some dom) email = false ↔
      match emailDomainSeg (email.getD "") with
      | none => True
      | some seg => strToLower seg = "" ∨ strToLower seg ≠ strToLower dom) := by
  simp only [acceptDomainOk]
  rw [if_neg hne]
  cases hseg : emailDomainSeg (email.getD "") with
  | none => simp [hseg]
  | some seg =>
    simp [hseg, Bool.and_eq_false_iff]
    tauto

/-- C9 (amended): with a non-empty stored `allowedDomain`, an otherwise-valid
accept fails with `domain_restricted` (403) and no mutation exactly when
`split("@")[1]` of the user's email — the segment between the first and the
second `'@'`, not the whole substring after the first `'@'` — is missing,
empty, or differs case-insensitively from the stored domain. -/
theorem acceptInvite_domain_gate (db : DB) (token uid dom : String)
    (invite : InviteRow) (user : UserRow) (now : Nat)
    (htok : token ≠ "")
    (hinv : findInviteByToken db token = some invite)
    (hnex : inviteExhausted invite.maxUses invite.usedCount = false)
    (huser : findUserById db uid = some user)
    (hdom : invite.allowedDomain = some dom) (hdomne : dom ≠ "") :
    (acceptInvite db token (some uid) now = (.error ⟨403, "domain_restricted"⟩, db) ↔
      match emailDomainSeg (user.email.getD "") with
      | none => True
      | some seg => strToLower seg = "" ∨ strToLower seg ≠ strToLower dom) := by
  rw [← acceptDomainOk_false_iff dom user.email hdomne, ← hdom]
  cases hok : acceptDomainOk invite.allowedDomain user.email
  · simp [acceptInvite, htok, hinv, hnex, huser, hok]
  · constructor
    · intro hEq
      have hfst := congrArg Prod.fst hEq
      simp [acceptInvite, htok, hinv, hnex, huser, hok] at hfst
    · intro hfalse
      exact absurd hfalse (by simp)


/-- C6 counterexample: with the invite valid and non-exhausted and the
verified id `"ghost"` referencing no user record, accept fails with kind
`user_not_found` but HTTP status 401 — not the 404 the claim states. -/
theorem acceptInvite_stale_user_404_counterexample :
    findInviteByToken sampleDb "tok" = some ⟨"i1", "tok", "t1", 2, 0, none, "u1"⟩ ∧
    findUserById sampleDb "ghost" = none ∧
    (acceptInvite sampleDb "tok" (some "ghost") 9).1 = .error ⟨401, "user_not_found"⟩ ∧
    (ErrResp.mk 401 "user_not_found") ≠ (ErrResp.mk 404 "user_not_found") :=
  ⟨by decide, by decide, by decide, by decide⟩

/-- C6 (amended) witness: the 401 `user_not_found` theorem applied to the
concrete database. -/
theorem acceptInvite_stale_user_401_witness :
    acceptInvite sampleDb "tok" (some "ghost") 9 =
      (.error ⟨401, "user_not_found"⟩, sampleDb) :=
  acceptInvite_stale_user_401 sampleDb "tok" "ghost" ⟨"i1", "tok", "t1", 2, 0, none, "u1"⟩ 9
    (by decide) (by decide) (by decide) (by decide)

/-- C9 counterexample: user `u6`'s email `x@corp.com@evil` has
`corp.com@evil` — not the stored domain `corp.com` — after its first `'@'`,
so the claim demands `domain_restricted`; the code compares only
`split("@")[1] = "corp.com"` and lets the accept succeed. -/
theorem acceptInvite_domain_counterexample :
    substringAfterFirstAt "x@corp.com@evil" = some "corp.com@evil" ∧
    strToLower "corp.com@evil" ≠ strToLower "corp.com" ∧
    findUserById sampleDb "u6" = some ⟨"u6", some "x@corp.com@evil", none⟩ ∧
    findInviteByToken sampleDb "tokd" = some ⟨"i2", "tokd", "t1", 0, 0, some "corp.com", "u1"⟩ ∧
    (acceptInvite sampleDb "tokd" (some "u6") 9).1 ≠ .error ⟨403, "domain_restricted"⟩ ∧
    (acceptInvite sampleDb "tokd" (some "u6") 9).1 = .ok ⟨"t1", "One", true, false, none⟩ :=
  ⟨by decide, by decide, by decide, by decide, by decide, by decide⟩

/-- C9 (amended) witness: the domain-gate characterization applied to the
concrete database, at a user whose email has no `'@'`-segment match. -/
theorem acceptInvite_domain_gate_witness :
    (acceptInvite sampleDb "tokd" (some "u6") 9 =
        (.error ⟨403, "domain_restricted"⟩, sampleDb) ↔
      match emailDomainSeg ((some "x@corp.com@evil" : Option String).getD "") with
      | none => True
      | some seg => strToLower seg = "" ∨ strToLower seg ≠ strToLower "corp.com") :=
  acceptInvite_domain_gate sampleDb "tokd" "u6" "corp.com"
    ⟨"i2", "tokd", "t1", 0, 0, some "corp.com", "u1"⟩ ⟨"u6", some "x@corp.com@evil", none⟩ 9
    (by decide) (by decide) (by decide) (by decide) (by decide) (by decide)

/-- C10 witness: issuing an invite with path parameter `zz` while the guard
resolved team `t1` is rejected as `forbidden` and creates nothing. -/
theorem issueInvite_team_mismatch_forbidden_witness :
    issueInvite sampleDb "zz" (some ⟨"t1", "One", "one"⟩) "u1" none none "tk" "i9" =
      (.error ⟨403, "forbidden"⟩, sampleDb) :=
  issueInvite_team_mismatch_forbidden sampleDb "zz" ⟨"t1", "One", "one"⟩ "u1" none none "tk" "i9"
    (by decide) (by decide)

/-- C3 witness: the fresh-member accept theorem applied to the concrete
database (user `u5` joins team `t1` through invite `tok`). -/
theorem acceptInvite_joins_new_member_witness :
    acceptInvite sampleDb "tok" (some "u5") 9 =
      (.ok ⟨"t1", "One", true, false, some 1⟩,
       { users :=
           [⟨"u1", some "ann@corp.com", none⟩,
            ⟨"u2", some "bob@corp.com", none⟩,
            ⟨"u3", some "cara@corp.com", none⟩,
            ⟨"u4", some "dan@corp.com", none⟩,
            ⟨"u5", some "eve@corp.com", some "t1"⟩,
            ⟨"u6", some "x@corp.com@evil", none⟩],
         teams := [⟨"t1", "One", "one"⟩, ⟨"t2", "Two", "two"⟩],
         members :=
           [⟨"t1", "u1", "owner", 0⟩,
            ⟨"t1", "u2", "admin", 2⟩,
            ⟨"t1", "u3", "admin", 1⟩,
            ⟨"t1", "u4", "member", 3⟩,
            ⟨"t2", "u4", "owner", 0⟩,
            ⟨"t1", "u5", "member", 9⟩],
         invites :=
           [⟨"i1", "tok", "t1", 2, 1, none, "u1"⟩,
            ⟨"i2", "tokd", "t1", 0, 0, some "corp.com", "u1"⟩] }) :=
  acceptInvite_joins_new_member sampleDb "tok" "u5" ⟨"i1", "tok", "t1", 2, 0, none, "u1"⟩
    ⟨"u5", some "eve@corp.com", none⟩ 9 (by decide) (by decide) (by decide) (by decide)
    (by decide) (by decide)

/-- C5 witness: the already-member accept theorem applied to the concrete
database (owner `u1` re-accepts `tok`). -/
theorem acceptInvite_already_member_witness :
    acceptInvite sampleDb "tok" (some "u1") 9 =
      (.ok ⟨"t1", "One", false, true, some 2⟩,
       { users :=
           [⟨"u1", some "ann@corp.com", some "t1"⟩,
            ⟨"u2", some "bob@corp.com", none⟩,
            ⟨"u3", some "cara@corp.com", none⟩,
            ⟨"u4", some "dan@corp.com", none⟩,
            ⟨"u5", some "eve@corp.com", none⟩,
            ⟨"u6", some "x@corp.com@evil", none⟩],
         teams := [⟨"t1", "One", "one"⟩, ⟨"t2", "Two", "two"⟩],
         members :=
           [⟨"t1", "u1", "owner", 0⟩,
            ⟨"t1", "u2", "admin", 2⟩,
            ⟨"t1", "u3", "admin", 1⟩,
            ⟨"t1", "u4", "member", 3⟩,
            ⟨"t2", "u4", "owner", 0⟩],
         invites :=
           [⟨"i1", "tok", "t1", 2, 0, none, "u1"⟩,
            ⟨"i2", "tokd", "t1", 0, 0, some "corp.com", "u1"⟩] }) :=
  acceptInvite_already_member sampleDb "tok" "u1" ⟨"i1", "tok", "t1", 2, 0, none, "u1"⟩
    ⟨"u1", some "ann@corp.com", none⟩ ⟨"t1", "u1", "owner", 0⟩ 9 (by decide) (by decide)
    (by decide) (by decide) (by decide) (by decide)

/-- C4 witness: the last-admin-owner theorem applied to the concrete
database (sole owner `u4` of team `t2` tries to self-remove). -/
theorem removeMember_last_admin_owner_witness :
    removeMember sampleDb "t2" "u4" "u4" = (.error ⟨400, "last_admin_owner"⟩, sampleDb) :=
  removeMember_last_admin_owner sampleDb "t2" "u4" "u4" ⟨"t2", "Two", "two"⟩
    ⟨"t2", "u4", "owner", 0⟩ (by decide) (by decide) (Or.inl rfl) (by decide) (by decide)
    (by decide)

/-- C2 witness: the succession theorem applied to the concrete database:
sole owner `u1` of `t1` self-removes and the earliest-created admin `u3`
(createdAt 1 < admin `u2`'s 2) is promoted. -/
theorem removeMember_sole_owner_promotes_witness :
    removeMember sampleDb "t1" "u1" "u1" =
      (.ok ⟨"u1", some "u3"⟩,
       { sampleDb with members := promoteAfterRemoval sampleDb.members "t1" "u1" "u3" }) ∧
    (MemberRow.mk "t1" "u3" "owner" 1) ∈ promoteAfterRemoval sampleDb.members "t1" "u1" "u3" :=
  (fun h => ⟨h.1, h.2.1⟩)
    (removeMember_sole_owner_promotes sampleDb "t1" "u1" "u1" ⟨"t1", "One", "one"⟩
      ⟨"t1", "u1", "owner", 0⟩ ⟨"t1", "u3", "admin", 1⟩
      (by unfold MemberKeyUnique KeyUniqueList; decide) (by decide) (by decide) (by decide) (by decide)
      (by decide) (by decide) (by decide) (by decide) (by decide) (by decide))

/-- C7 witness: the role-change case theorem applied to the concrete
database: owner `u1` promotes member `u4` of `t1` to owner (the same
request issued by admin `u2` is covered by the theorem's `owner_only`
case). -/
theorem changeRole_cases_witness :
    changeRole sampleDb "t1" "u1" (some "owner") "u4" =
      (.ok ⟨"t1", "u4", "owner", 3⟩,
       { users := sampleDb.users,
         teams := sampleDb.teams,
         members :=
           [⟨"t1", "u1", "owner", 0⟩,
            ⟨"t1", "u2", "admin", 2⟩,
            ⟨"t1", "u3", "admin", 1⟩,
            ⟨"t1", "u4", "owner", 3⟩,
            ⟨"t2", "u4", "owner", 0⟩],
         invites := sampleDb.invites }) :=
  ((changeRole_cases sampleDb "t1" "u1" (some "owner") "u4" ⟨"t1", "One", "one"⟩
      ⟨"t1", "u1", "owner", 0⟩ "owner" (by decide) (by decide) (Or.inl rfl) (by decide)
      (by decide)).2 ⟨"t1", "u4", "member", 3⟩ (by decide)).2.2 (by decide) (fun _ => rfl)


theorem digitsVal_natDigitsAux : ∀ (fuel n : Nat), n ≤ fuel →
    digitsVal (natDigitsAux fuel n) = n := by
  intro fuel
  induction fuel with
  | zero =>
    intro n hn
    interval_cases n
    simp [natDigitsAux, digitsVal]
  | succ f ih =>
    intro n hn
    match n with
    | 0 => simp [natDigitsAux, digitsVal]
    | m + 1 =>
      have hdiv : (m + 1) / 10 ≤ f := by
        have h1 : (m + 1) / 10 < m + 1 := Nat.div_lt_self (Nat.succ_pos m) (by omega)
        omega
      simp only [natDigitsAux, digitsVal, ih _ hdiv]
      omega

theorem natDigitsAux_lt_ten : ∀ (fuel n : Nat), ∀ d ∈ natDigitsAux fuel n, d < 10 := by
  intro fuel
  induction fuel with
  | zero => intro n d hd; simp [natDigitsAux] at hd
  | succ f ih =>
    intro n d hd
    match n with
    | 0 => simp [natDigitsAux] at hd
    | m + 1 =>
      simp only [natDigitsAux, List.mem_cons] at hd
      rcases hd with rfl | hd
      · exact Nat.mod_lt _ (by omega)
      · exact ih _ d hd

theorem natDigitChar_inj_lt : ∀ x < 10, ∀ y < 10, natDigitChar x = natDigitChar y → x = y := by
  decide

theorem map_natDigitChar_inj : ∀ (l1 l2 : List Nat), (∀ d ∈ l1, d < 10) → (∀ d ∈ l2, d < 10) →
    l1.map natDigitChar = l2.map natDigitChar → l1 = l2 := by
  intro l1
  induction l1 with
  | nil => intro l2 _ _ h; cases l2 <;> simp_all
  | cons d ds ih =>
    intro l2 h1 h2 h
    cases l2 with
    | nil => simp at h
    | cons e es =>
      simp only [List.map_cons, List.cons.injEq] at h
      have hd : d = e := natDigitChar_inj_lt d (h1 d (by simp)) e (h2 e (by simp)) h.1
      have hds : ds = es := ih es (fun x hx => h1 x (by simp [hx])) (fun x hx => h2 x (by simp [hx])) h.2
      rw [hd, hds]

theorem natToStr_inj_pos {a b : Nat} (ha : 0 < a) (hb : 0 < b) (h : natToStr a = natToStr b) :
    a = b := by
  unfold natToStr at h
  rw [if_neg (by omega), if_neg (by omega)] at h
  have hdata := congrArg String.data h
  simp only [String.data] at hdata
  have hrev := map_natDigitChar_inj _ _
    (fun d hd => natDigitsAux_lt_ten a a d (List.mem_reverse.mp hd))
    (fun d hd => natDigitsAux_lt_ten b b d (List.mem_reverse.mp hd)) hdata
  have hlists : natDigitsAux a a = natDigitsAux b b := List.reverse_injective hrev
  have hva := digitsVal_natDigitsAux a a (Nat.le_refl a)
  have hvb := digitsVal_natDigitsAux b b (Nat.le_refl b)
  rw [← hva, ← hvb, hlists]

theorem natToStr_len_pos {k : Nat} (hk : 0 < k) : 0 < (natToStr k).length := by
  unfold natToStr
  rw [if_neg (by omega)]
  match k, hk with
  | m + 1, _ =>
    show 0 < (String.mk _).length
    simp only [String.length, natDigitsAux, List.reverse_cons, List.map_append, List.length_append]
    simp

theorem slugCandidate_inj (root : String) : ∀ {i j : Nat},
    slugCandidate root i = slugCandidate root j → i = j := by
  intro i j h
  match i, j with
  | 0, 0 => rfl
  | 0, k + 1 =>
    exfalso
    have hdash : ("-" : String).length = 1 := rfl
    have := congrArg String.length h
    simp only [slugCandidate, String.length_append, hdash] at this
    have hlen := natToStr_len_pos (Nat.succ_pos k)
    omega
  | k + 1, 0 =>
    exfalso
    have hdash : ("-" : String).length = 1 := rfl
    have := congrArg String.length h
    simp only [slugCandidate, String.length_append, hdash] at this
    have hlen := natToStr_len_pos (Nat.succ_pos k)
    omega
  | j1 + 1, j2 + 1 =>
    simp only [slugCandidate] at h
    have hdata := congrArg String.data h
    simp only [String.data_append] at hdata
    have h2 := List.append_cancel_left hdata
    have h3 : natToStr (j1 + 1) = natToStr (j2 + 1) := String.ext h2
    have := natToStr_inj_pos (Nat.succ_pos j1) (Nat.succ_pos j2) h3
    omega

theorem contains_eq_true_iff (l : List String) (a : String) : l.contains a = true ↔ a ∈ l :=
  List.elem_iff

theorem contains_eq_false_iff (l : List String) (a : String) : l.contains a = false ↔ a ∉ l := by
  constructor
  · intro h hm
    rw [(contains_eq_true_iff l a).mpr hm] at h
    cases h
  · intro h
    cases hc : l.contains a
    · rfl
    · exact absurd ((contains_eq_true_iff l a).mp hc) h

theorem exists_unused_candidate (used : List String) (root : String) :
    ∃ k, k ≤ used.length ∧ slugCandidate root k ∉ used := by
  by_contra hcon
  push_neg at hcon
  have hsub : ((List.range (used.length + 1)).map (slugCandidate root)) ⊆ used := by
    intro s hs
    obtain ⟨k, hk, rfl⟩ := List.mem_map.mp hs
    exact hcon k (by have := List.mem_range.mp hk; omega)
  have hnodup : ((List.range (used.length + 1)).map (slugCandidate root)).Nodup :=
    (List.nodup_range _).map (fun a b hab => slugCandidate_inj root hab)
  have hlen : used.length + 1 ≤ used.length := by
    calc used.length + 1
        = ((List.range (used.length + 1)).map (slugCandidate root)).length := by simp
      _ = ((List.range (used.length + 1)).map (slugCandidate root)).toFinset.card :=
          (List.toFinset_card_of_nodup hnodup).symm
      _ ≤ used.toFinset.card :=
          Finset.card_le_card (fun s hs =>
            List.mem_toFinset.mpr (hsub (List.mem_toFinset.mp hs)))
      _ ≤ used.length := List.toFinset_card_le used
  omega

theorem slugSearch_finds_first (used : List String) (root : String) :
    ∀ (fuel i j : Nat), j < fuel →
      slugCandidate root (i + j) ∉ used →
      (∀ j2 < j, slugCandidate root (i + j2) ∈ used) →
      slugSearch used root fuel i = slugCandidate root (i + j) := by
  intro fuel
  induction fuel with
  | zero => intro i j hj; omega
  | succ f ih =>
    intro i j hj hfree hmin
    unfold slugSearch
    cases hc : used.contains (slugCandidate root i)
    · have hj0 : j = 0 := by
        by_contra hne
        have h0 := hmin 0 (by omega)
        rw [Nat.add_zero] at h0
        exact absurd ((contains_eq_false_iff used _).mp hc) (by simp [h0])
      subst hj0
      simp
    · have hj0 : j ≠ 0 := by
        intro h0
        subst h0
        rw [Nat.add_zero] at hfree
        exact hfree ((contains_eq_true_iff used _).mp hc)
      match j, hj0 with
      | j2 + 1, _ =>
        rw [if_pos rfl]
        have hres := ih (i + 1) j2 (by omega)
          (by rw [show i + 1 + j2 = i + (j2 + 1) by omega]; exact hfree)
          (fun j3 hj3 => by
            rw [show i + 1 + j3 = i + (j3 + 1) by omega]
            exact hmin (j3 + 1) (by omega))
        rw [hres, show i + 1 + j2 = i + (j2 + 1) by omega]

/-- C8: the slug allocator returns `base` (or the literal `"team"` when
`base` is empty) when it is unused, and otherwise the first of `base-1`,
`base-2`, ... that is unused; in particular allocating `"acme"` twice in
sequence yields `"acme"` then `"acme-1"`. -/
theorem ensureUniqueSlug_first_unused (used : List String) (base : String) :
    ((if base = "" then "team" else base) ∉ used →
       ensureUniqueSlug used base = (if base = "" then "team" else base)) ∧
    ((if base = "" then "team" else base) ∈ used →
       ∃ k, 1 ≤ k ∧
         ensureUniqueSlug used base = slugCandidate (if base = "" then "team" else base) k ∧
         slugCandidate (if base = "" then "team" else base) k ∉ used ∧
         ∀ j, 1 ≤ j → j < k → slugCandidate (if base = "" then "team" else base) j ∈ used) ∧
    ensureUniqueSlug [] "acme" = "acme" ∧
    ensureUniqueSlug ["acme"] "acme" = "acme-1" := by
  set root := if base = "" then "team" else base with hroot
  have hex : ∃ k, slugCandidate root k ∉ used := by
    obtain ⟨k, _, hk⟩ := exists_unused_candidate used root
    exact ⟨k, hk⟩
  refine ⟨?_, ?_, by decide, by decide⟩
  · intro h0
    have hsf := slugSearch_finds_first used root (used.length + 1) 0 0 (by omega)
      (by simpa using h0) (by omega)
    simpa [ensureUniqueSlug, hroot] using hsf
  · intro h0
    have hk0 : slugCandidate root (Nat.find hex) ∉ used := Nat.find_spec hex
    have hmin : ∀ j < Nat.find hex, slugCandidate root j ∈ used := fun j hj =>
      Decidable.not_not.mp (Nat.find_min hex hj)
    have hk0ne : Nat.find hex ≠ 0 := by
      intro he
      rw [he] at hk0
      exact hk0 (by simpa [slugCandidate] using h0)
    have hk0le : Nat.find hex ≤ used.length := by
      obtain ⟨k, hkle, hk⟩ := exists_unused_candidate used root
      exact le_trans (Nat.find_min' hex hk) hkle
    have heq := slugSearch_finds_first used root (used.length + 1) 0 (Nat.find hex) (by omega)
      (by simpa using hk0) (fun j2 hj2 => by simpa using hmin j2 hj2)
    refine ⟨Nat.find hex, by omega, ?_, hk0, fun j h1 hj => hmin j hj⟩
    simpa [ensureUniqueSlug, hroot] using heq

/-- C8 witness: the first-unused theorem applied to a base that is not yet
taken. -/
theorem ensureUniqueSlug_first_unused_witness :
    ("zebra" : String) ∉ ["acme"] ∧ ensureUniqueSlug ["acme"] "zebra" = "zebra" :=
  ⟨by decide, (ensureUniqueSlug_first_unused ["acme"] "zebra").1 (by decide)⟩


theorem inv_adminOwner {db : DB} (h : Inv db) : AdminOwnerInvariant db := by
  obtain ⟨hown, href, _, _⟩ := h
  rintro tid ⟨m, hm, hmt⟩
  obtain ⟨t, ht, htid⟩ := href m hm
  obtain ⟨mo, hmo, hmot, hmor⟩ := hown t ht
  exact ⟨mo, hmo, by rw [hmot, htid, hmt], Or.inl hmor⟩

theorem keyUniqueList_append_single {l : List MemberRow} {r : MemberRow}
    (hu : KeyUniqueList l)
    (hfresh : ∀ m ∈ l, ¬(m.teamId = r.teamId ∧ m.userId = r.userId)) :
    KeyUniqueList (l ++ [r]) := by
  intro m1 h1 m2 h2 ht hui
  rcases List.mem_append.mp h1 with ha | ha
  · rcases List.mem_append.mp h2 with hb | hb
    · exact hu m1 ha m2 hb ht hui
    · obtain rfl := List.mem_singleton.mp hb
      exact absurd ⟨ht, hui⟩ (hfresh m1 ha)
  · obtain rfl := List.mem_singleton.mp ha
    rcases List.mem_append.mp h2 with hb | hb
    · exact absurd ⟨ht.symm, hui.symm⟩ (hfresh m2 hb)
    · rw [List.mem_singleton.mp hb]

theorem keyUniqueList_sub {l l2 : List MemberRow} (hsub : l2 ⊆ l) (hu : KeyUniqueList l) :
    KeyUniqueList l2 :=
  fun m1 h1 m2 h2 ht hui => hu m1 (hsub h1) m2 (hsub h2) ht hui

theorem keyUniqueList_map_keyPreserving {l : List MemberRow} {f : MemberRow → MemberRow}
    (hkey : ∀ m, (f m).teamId = m.teamId ∧ (f m).userId = m.userId)
    (hu : KeyUniqueList l) : KeyUniqueList (l.map f) := by
  intro m1 h1 m2 h2 ht hui
  obtain ⟨a1, ha1, rfl⟩ := List.mem_map.mp h1
  obtain ⟨a2, ha2, rfl⟩ := List.mem_map.mp h2
  rw [(hkey a1).1, (hkey a2).1] at ht
  rw [(hkey a1).2, (hkey a2).2] at hui
  rw [hu a1 ha1 a2 ha2 ht hui]

theorem minByCreatedAt_ne_nil {l : List MemberRow} (h : l ≠ []) :
    ∃ x, minByCreatedAt l = some x := by
  match l, h with
  | m :: ms, _ =>
    unfold minByCreatedAt
    cases hms : minByCreatedAt ms with
    | none => exact ⟨m, rfl⟩
    | some m2 =>
      by_cases hle : m.createdAt ≤ m2.createdAt
      · exact ⟨m, by simp [hle]⟩
      · exact ⟨m2, by simp [hle]⟩

theorem inviteTeamId_of_usedCountBump (invite : InviteRow) (i : InviteRow) :
    (if i.id == invite.id then { i with usedCount := i.usedCount + 1 } else i).teamId =
      i.teamId := by
  by_cases h : (i.id == invite.id) = true <;> simp [h]

theorem acceptInvite_inv (db : DB) (token : String) (authUserId : Option String) (now : Nat)
    (hInv : Inv db) : Inv (acceptInvite db token authUserId now).2 := by
  obtain ⟨hown, href, hinvref, huniq⟩ := hInv
  by_cases htok : token = ""
  · simp [acceptInvite, htok]
    exact ⟨hown, href, hinvref, huniq⟩
  cases authUserId with
  | none =>
    simp [acceptInvite, htok]
    exact ⟨hown, href, hinvref, huniq⟩
  | some uid =>
  cases hinvite : findInviteByToken db token with
  | none =>
    simp [acceptInvite, htok, hinvite]
    exact ⟨hown, href, hinvref, huniq⟩
  | some invite =>
  cases hex : inviteExhausted invite.maxUses invite.usedCount with
  | true =>
    simp [acceptInvite, htok, hinvite, hex]
    exact ⟨hown, href, hinvref, huniq⟩
  | false =>
  cases huser : findUserById db uid with
  | none =>
    simp [acceptInvite, htok, hinvite, hex, huser]
    exact ⟨hown, href, hinvref, huniq⟩
  | some user =>
  cases hdom : acceptDomainOk invite.allowedDomain user.email with
  | false =>
    simp [acceptInvite, htok, hinvite, hex, huser, hdom]
    exact ⟨hown, href, hinvref, huniq⟩
  | true =>
  cases hmem : findMember db invite.teamId user.id with
  | some m =>
    have hpost : (acceptInvite db token (some uid) now).2 =
        { db with users := db.users.map (fun u =>
            if u.id == user.id then { u with lastActiveTeamId := some invite.teamId } else u) } := by
      simp [acceptInvite, htok, hinvite, hex, huser, hdom, hmem]
    rw [hpost]
    exact ⟨hown, href, hinvref, huniq⟩
  | none =>
    have hpost : (acceptInvite db token (some uid) now).2 =
        { db with
            members := db.members ++ [⟨invite.teamId, user.id, "member", now⟩],
            invites :=
              if 0 < invite.maxUses then
                db.invites.map (fun i =>
                  if i.id == invite.id then { i with usedCount := i.usedCount + 1 } else i)
              else db.invites,
            users := db.users.map (fun u =>
              if u.id == user.id then { u with lastActiveTeamId := some invite.teamId } else u) } := by
      by_cases hmu : 0 < invite.maxUses <;>
        simp [acceptInvite, htok, hinvite, hex, huser, hdom, hmem, hmu]
    rw [hpost]
    refine ⟨?_, ?_, ?_, ?_⟩
    · intro t ht
      obtain ⟨mo, hmo, h1, h2⟩ := hown t ht
      exact ⟨mo, List.mem_append_left _ hmo, h1, h2⟩
    · intro m hm
      rcases List.mem_append.mp hm with hm | hm
      · exact href m hm
      · obtain rfl := List.mem_singleton.mp hm
        exact hinvref invite (List.mem_of_find?_eq_some hinvite)
    · by_cases hmu : 0 < invite.maxUses
      · rw [if_pos hmu]
        intro i' hi'
        obtain ⟨i, hi, rfl⟩ := List.mem_map.mp hi'
        rw [inviteTeamId_of_usedCountBump]
        exact hinvref i hi
      · rw [if_neg hmu]
        exact hinvref
    · refine keyUniqueList_append_single huniq ?_
      intro m hm hk
      have := List.find?_eq_none.mp hmem m hm
      simp only [Bool.and_eq_true, beq_iff_eq, not_and] at this
      exact this hk.1 hk.2

theorem addMember_inv (db : DB) (teamId uid emailRaw : String) (now : Nat)
    (hInv : Inv db) : Inv (addMember db teamId uid emailRaw now).2 := by
  obtain ⟨hown, href, hinvref, huniq⟩ := hInv
  cases hteam : findTeam db teamId with
  | none => simp [addMember, hteam]; exact ⟨hown, href, hinvref, huniq⟩
  | some team =>
  cases hacting : findMember db team.id uid with
  | none => simp [addMember, hteam, hacting]; exact ⟨hown, href, hinvref, huniq⟩
  | some actingMember =>
  cases hra : roleAllowed ["owner", "admin"] actingMember.role with
  | false =>
    simp [addMember, hteam, hacting, hra]; exact ⟨hown, href, hinvref, huniq⟩
  | true =>
  by_cases hemail : strToLower (strTrim emailRaw) = ""
  · simp [addMember, hteam, hacting, hra, hemail]; exact ⟨hown, href, hinvref, huniq⟩
  cases huser : findUserByEmail db (strToLower (strTrim emailRaw)) with
  | none =>
    simp [addMember, hteam, hacting, hra, hemail, huser]
    exact ⟨hown, href, hinvref, huniq⟩
  | some user =>
  cases hmem : findMember db team.id user.id with
  | some m =>
    simp [addMember, hteam, hacting, hra, hemail, huser, hmem]
    exact ⟨hown, href, hinvref, huniq⟩
  | none =>
    have hpost : (addMember db teamId uid emailRaw now).2 =
        { db with members := db.members ++ [⟨team.id, user.id, "member", now⟩] } := by
      simp [addMember, hteam, hacting, hra, hemail, huser, hmem]
    rw [hpost]
    refine ⟨?_, ?_, hinvref, ?_⟩
    · intro t ht
      obtain ⟨mo, hmo, h1, h2⟩ := hown t ht
      exact ⟨mo, List.mem_append_left _ hmo, h1, h2⟩
    · intro m hm
      rcases List.mem_append.mp hm with hm | hm
      · exact href m hm
      · obtain rfl := List.mem_singleton.mp hm
        exact ⟨team, List.mem_of_find?_eq_some hteam, rfl⟩
    · refine keyUniqueList_append_single huniq ?_
      intro m hm hk
      have := List.find?_eq_none.mp hmem m hm
      simp only [Bool.and_eq_true, beq_iff_eq, not_and] at this
      exact this hk.1 hk.2

theorem createTeam_inv (db : DB) (authUserId : Option String)
    (nameRaw slugBase newTeamId : String) (now : Nat)
    (hInv : Inv db) (hfresh : ∀ t ∈ db.teams, t.id ≠ newTeamId) :
    Inv (createTeam db authUserId nameRaw slugBase newTeamId now).2 := by
  obtain ⟨hown, href, hinvref, huniq⟩ := hInv
  by_cases hname : strTrim nameRaw = ""
  · simp [createTeam, hname]; exact ⟨hown, href, hinvref, huniq⟩
  cases authUserId with
  | none => simp [createTeam, hname]; exact ⟨hown, href, hinvref, huniq⟩
  | some uid =>
  cases huser : findUserById db uid with
  | none => simp [createTeam, hname, huser]; exact ⟨hown, href, hinvref, huniq⟩
  | some user =>
  have hpost : (createTeam db (some uid) nameRaw slugBase newTeamId now).2 =
      { db with
          teams := db.teams ++
            [⟨newTeamId, strTrim nameRaw,
              ensureUniqueSlug (db.teams.map (fun t => t.slug)) slugBase⟩],
          members := db.members ++ [⟨newTeamId, user.id, "owner", now⟩],
          users := db.users.map (fun u =>
            if u.id == user.id then { u with lastActiveTeamId := some newTeamId } else u) } := by
    simp [createTeam, hname, huser]
  rw [hpost]
  refine ⟨?_, ?_, ?_, ?_⟩
  · intro t ht
    rcases List.mem_append.mp ht with ht | ht
    · obtain ⟨mo, hmo, h1, h2⟩ := hown t ht
      exact ⟨mo, List.mem_append_left _ hmo, h1, h2⟩
    · obtain rfl := List.mem_singleton.mp ht
      exact ⟨⟨newTeamId, user.id, "owner", now⟩,
        List.mem_append_right _ (List.mem_singleton.mpr rfl), rfl, rfl⟩
  · intro m hm
    rcases List.mem_append.mp hm with hm | hm
    · obtain ⟨t, ht, htid⟩ := href m hm
      exact ⟨t, List.mem_append_left _ ht, htid⟩
    · obtain rfl := List.mem_singleton.mp hm
      refine ⟨_, List.mem_append_right _ (List.mem_singleton.mpr rfl), rfl⟩
  · intro i hi
    obtain ⟨t, ht, htid⟩ := hinvref i hi
    exact ⟨t, List.mem_append_left _ ht, htid⟩
  · refine keyUniqueList_append_single huniq ?_
    intro m hm hk
    obtain ⟨t, ht, htid⟩ := href m hm
    exact hfresh t ht (htid.trans hk.1)

theorem roleUpdate_keyPreserving (teamId targetUserId : String) (newRole : String) :
    ∀ m : MemberRow,
      ((if m.teamId == teamId && m.userId == targetUserId then
          { m with role := newRole } else m).teamId = m.teamId ∧
       (if m.teamId == teamId && m.userId == targetUserId then
          { m with role := newRole } else m).userId = m.userId) := by
  intro m
  by_cases h : (m.teamId == teamId && m.userId == targetUserId) = true <;> simp [h]

theorem changeRole_inv (db : DB) (teamId uid : String) (roleInput : Option String)
    (targetRaw : String) (hInv : Inv db) :
    Inv (changeRole db teamId uid roleInput targetRaw).2 := by
  obtain ⟨hown, href, hinvref, huniq⟩ := hInv
  cases hteam : findTeam db teamId with
  | none => simp [changeRole, hteam]; exact ⟨hown, href, hinvref, huniq⟩
  | some team =>
  cases hacting : findMember db team.id uid with
  | none => simp [changeRole, hteam, hacting]; exact ⟨hown, href, hinvref, huniq⟩
  | some actingMember =>
  cases hra : roleAllowed ["owner", "admin"] actingMember.role with
  | false => simp [changeRole, hteam, hacting, hra]; exact ⟨hown, href, hinvref, huniq⟩
  | true =>
  cases hparse : parseTeamRoleInput roleInput with
  | error e =>
    simp [changeRole, hteam, hacting, hra, hparse]; exact ⟨hown, href, hinvref, huniq⟩
  | ok v =>
  cases v with
  | none =>
    simp [changeRole, hteam, hacting, hra, hparse]; exact ⟨hown, href, hinvref, huniq⟩
  | some newRole =>
  by_cases hempty : strTrim targetRaw = ""
  · simp [changeRole, hteam, hacting, hra, hparse, hempty]
    exact ⟨hown, href, hinvref, huniq⟩
  cases htm : findMember db team.id (strTrim targetRaw) with
  | none =>
    simp [changeRole, hteam, hacting, hra, hparse, hempty, htm]
    exact ⟨hown, href, hinvref, huniq⟩
  | some tm =>
  by_cases hlk : tm.role = "owner"
  · simp [changeRole, hteam, hacting, hra, hparse, hempty, htm, hlk]
    exact ⟨hown, href, hinvref, huniq⟩
  by_cases hoo : newRole = "owner" ∧ actingMember.role ≠ "owner"
  · simp [changeRole, hteam, hacting, hra, hparse, hempty, htm, hlk, hoo]
    exact ⟨hown, href, hinvref, huniq⟩
  have hpost : (changeRole db teamId uid roleInput targetRaw).2 =
      { db with members := db.members.map (fun m =>
          if m.teamId == team.id && m.userId == strTrim targetRaw then
            { m with role := newRole } else m) } := by
    simp [changeRole, hteam, hacting, hra, hparse, hempty, htm, hlk, hoo]
  rw [hpost]
  obtain ⟨htm_mem, htm_team, htm_uid⟩ := findMember_props htm
  refine ⟨?_, ?_, hinvref, ?_⟩
  · intro t ht
    obtain ⟨mo, hmo, h1, h2⟩ := hown t ht
    have hfmo : (if mo.teamId == team.id && mo.userId == strTrim targetRaw then
        { mo with role := newRole } else mo) = mo := by
      by_cases hc : (mo.teamId == team.id && mo.userId == strTrim targetRaw) = true
      · exfalso
        simp only [Bool.and_eq_true, beq_iff_eq] at hc
        have : mo = tm := huniq mo hmo tm htm_mem (hc.1.trans htm_team.symm)
          (hc.2.trans htm_uid.symm)
        rw [this] at h2
        exact hlk h2
      · simp [hc]
    exact ⟨mo, hfmo ▸ List.mem_map_of_mem _ hmo, h1, h2⟩
  · intro m' hm'
    obtain ⟨m, hm, rfl⟩ := List.mem_map.mp hm'
    rw [(roleUpdate_keyPreserving team.id (strTrim targetRaw) newRole m).1]
    exact href m hm
  · exact keyUniqueList_map_keyPreserving
      (roleUpdate_keyPreserving team.id (strTrim targetRaw) newRole) huniq

theorem promote_keyPreserving (teamId promotedUserId : String) :
    ∀ m : MemberRow,
      ((if m.teamId == teamId && m.userId == promotedUserId then
          { m with role := "owner" } else m).teamId = m.teamId ∧
       (if m.teamId == teamId && m.userId == promotedUserId then
          { m with role := "owner" } else m).userId = m.userId) := by
  intro m
  by_cases h : (m.teamId == teamId && m.userId == promotedUserId) = true <;> simp [h]

theorem removeMember_inv (db : DB) (teamId uid targetRaw : String) (hInv : Inv db) :
    Inv (removeMember db teamId uid targetRaw).2 := by
  obtain ⟨hown, href, hinvref, huniq⟩ := hInv
  cases hteam : findTeam db teamId with
  | none => simp [removeMember, hteam]; exact ⟨hown, href, hinvref, huniq⟩
  | some team =>
  cases hacting : findMember db team.id uid with
  | none => simp [removeMember, hteam, hacting]; exact ⟨hown, href, hinvref, huniq⟩
  | some actingMember =>
  cases hra : roleAllowed ["owner", "admin"] actingMember.role with
  | false => simp [removeMember, hteam, hacting, hra]; exact ⟨hown, href, hinvref, huniq⟩
  | true =>
  by_cases hempty : strTrim targetRaw = ""
  · simp [removeMember, hteam, hacting, hra, hempty]; exact ⟨hown, href, hinvref, huniq⟩
  cases htm : findMember db team.id (strTrim targetRaw) with
  | none =>
    simp [removeMember, hteam, hacting, hra, hempty, htm]
    exact ⟨hown, href, hinvref, huniq⟩
  | some tm =>
  obtain ⟨htm_mem, htm_team, htm_uid⟩ := findMember_props htm
  cases hlk : tm.role == "owner" && !(tm.userId == uid) with
  | true =>
    simp [removeMember, hteam, hacting, hra, hempty, htm, hlk]
    exact ⟨hown, href, hinvref, huniq⟩
  | false =>
  cases hguard : tm.userId == uid && countOtherAdminOwners db.members team.id tm.userId == 0 with
  | true =>
    have hpost : (removeMember db teamId uid targetRaw).2 = db := by
      simp only [removeMember, hteam, hacting, hra, Bool.not_true, Bool.false_eq_true, if_false]
      rw [if_neg hempty]
      simp only [htm, hlk, hguard, Bool.false_eq_true, if_false, if_true]
    rw [hpost]
    exact ⟨hown, href, hinvref, huniq⟩
  | false =>
  -- the transaction runs; first reduce the outer layers of the handler
  have hmem1_sub : ∀ m ∈ db.members.filter
      (fun m => !(m.teamId == team.id && m.userId == strTrim targetRaw)), m ∈ db.members :=
    fun m hm => (List.mem_filter.mp hm).1
  have hsurvive : ∀ m ∈ db.members, ¬(m.teamId = team.id ∧ m.userId = strTrim targetRaw) →
      m ∈ db.members.filter (fun m => !(m.teamId == team.id && m.userId == strTrim targetRaw)) := by
    intro m hm hk
    refine List.mem_filter.mpr ⟨hm, ?_⟩
    simp only [Bool.not_eq_true', Bool.and_eq_false_iff, beq_eq_false_iff_ne, ne_eq]
    by_cases hmt : m.teamId = team.id
    · exact Or.inr (fun hu => hk ⟨hmt, hu⟩)
    · exact Or.inl hmt
  have howner_survives : ∀ t ∈ db.teams, t.id ≠ team.id ∨ tm.role ≠ "owner" →
      ∃ mo ∈ db.members.filter
        (fun m => !(m.teamId == team.id && m.userId == strTrim targetRaw)),
        mo.teamId = t.id ∧ mo.role = "owner" := by
    intro t ht hcase
    obtain ⟨mo, hmo, h1, h2⟩ := hown t ht
    refine ⟨mo, hsurvive mo hmo ?_, h1, h2⟩
    rintro ⟨hk1, hk2⟩
    have : mo = tm := huniq mo hmo tm htm_mem (hk1.trans htm_team.symm) (hk2.trans htm_uid.symm)
    rcases hcase with hc | hc
    · exact hc (h1.symm.trans hk1)
    · rw [this] at h2; exact hc h2
  simp only [removeMember, hteam, hacting, hra, Bool.not_true, Bool.false_eq_true, if_false]
  rw [if_neg hempty]
  simp only [htm, hlk, hguard, Bool.false_eq_true, if_false]
  cases hsf : tm.userId == uid && tm.role == "owner" with
  | false =>
    simp only [hsf, Bool.false_eq_true, if_false]
    -- members' is just the filtered list
    have hrole_ne : ∀ t ∈ db.teams, t.id ≠ team.id ∨ tm.role ≠ "owner" := by
      intro t ht
      right
      intro hro
      -- tm is an owner: then hlk false forces isSelf, and hsf false forces not owner
      have hself : (tm.userId == uid) = true := by
        cases hu : tm.userId == uid
        · rw [hro] at hlk; simp [hu] at hlk
        · rfl
      rw [hself, hro] at hsf
      simp at hsf
    refine ⟨?_, ?_, hinvref, keyUniqueList_sub (fun m hm => hmem1_sub m hm) huniq⟩
    · intro t ht
      obtain ⟨mo, hmo, h1, h2⟩ := howner_survives t ht (hrole_ne t ht)
      exact ⟨mo, hmo, h1, h2⟩
    · intro m hm
      exact href m (hmem1_sub m hm)
  | true =>
    simp only [hsf, if_true]
    have hself : (tm.userId == uid) = true := by
      cases hu : tm.userId == uid
      · rw [hu] at hsf; simp at hsf
      · rfl
    have hcnt : countOtherAdminOwners db.members team.id tm.userId ≠ 0 := by
      intro h0
      rw [hself] at hguard
      simp [h0] at hguard
    have hfilter_ne : db.members.filter (fun m =>
        m.teamId == team.id && (m.role == "owner" || m.role == "admin") &&
          m.userId != tm.userId) ≠ [] := by
      intro hnil
      apply hcnt
      unfold countOtherAdminOwners
      rw [hnil]
      rfl
    obtain ⟨other, hother_f⟩ := List.exists_mem_of_ne_nil _ hfilter_ne
    obtain ⟨hother_mem, hother_p⟩ := List.mem_filter.mp hother_f
    simp only [Bool.and_eq_true, Bool.or_eq_true, beq_iff_eq, bne_iff_ne, ne_eq] at hother_p
    have hother_in1 : other ∈ db.members.filter
        (fun m => !(m.teamId == team.id && m.userId == strTrim targetRaw)) := by
      refine hsurvive other hother_mem ?_
      rintro ⟨_, hu⟩
      exact hother_p.2 (hu.trans htm_uid.symm)
    by_cases hoc : ((db.members.filter
        (fun m => !(m.teamId == team.id && m.userId == strTrim targetRaw))).filter
          (fun m => m.teamId == team.id && m.role == "owner")).length = 0
    · rw [if_pos hoc]
      -- no owner remains after the deletion, so `other` must be an admin and
      -- the promotion query finds an earliest-created admin to promote
      have hother_admin : other.role = "admin" := by
        rcases hother_p.1.2 with ho | ha
        · exfalso
          have hofilter : other ∈ (db.members.filter (fun m =>
              !(m.teamId == team.id && m.userId == strTrim targetRaw))).filter
                (fun m => m.teamId == team.id && m.role == "owner") :=
            List.mem_filter.mpr ⟨hother_in1, by simp [hother_p.1.1, ho]⟩
          have hpos := List.length_pos.mpr (List.ne_nil_of_mem hofilter)
          omega
        · exact ha
      have hadmins_ne : (db.members.filter (fun m =>
          !(m.teamId == team.id && m.userId == strTrim targetRaw))).filter
            (fun m => m.teamId == team.id && m.role == "admin") ≠ [] :=
        List.ne_nil_of_mem
          (List.mem_filter.mpr ⟨hother_in1, by simp [hother_p.1.1, hother_admin]⟩)
      obtain ⟨na, hna⟩ := minByCreatedAt_ne_nil hadmins_ne
      rw [hna]
      obtain ⟨hna1, hna2⟩ := List.mem_filter.mp (minByCreatedAt_mem hna)
      simp only [Bool.and_eq_true, beq_iff_eq] at hna2
      refine ⟨?_, ?_, hinvref, keyUniqueList_map_keyPreserving
        (promote_keyPreserving team.id na.userId)
        (keyUniqueList_sub (fun m hm => hmem1_sub m hm) huniq)⟩
      · intro t ht
        by_cases hti : t.id = team.id
        · refine ⟨{ na with role := "owner" }, ?_, ?_, rfl⟩
          · have heqna : (if na.teamId == team.id && na.userId == na.userId then
                { na with role := "owner" } else na) = { na with role := "owner" } := by
              simp [hna2.1]
            exact heqna ▸ List.mem_map_of_mem _ hna1
          · show na.teamId = t.id
            rw [hna2.1, hti]
        · obtain ⟨mo, hmo, h1, h2⟩ := howner_survives t ht (Or.inl hti)
          refine ⟨mo, ?_, h1, h2⟩
          have hfmo : (if mo.teamId == team.id && mo.userId == na.userId then
              { mo with role := "owner" } else mo) = mo := by
            have hne2 : mo.teamId ≠ team.id := by rw [h1]; exact hti
            simp [hne2]
          exact hfmo ▸ List.mem_map_of_mem _ hmo
      · intro m' hm'
        obtain ⟨m, hm, rfl⟩ := List.mem_map.mp hm'
        rw [(promote_keyPreserving team.id na.userId m).1]
        exact href m (hmem1_sub m hm)
    · rw [if_neg hoc]
      refine ⟨?_, ?_, hinvref, keyUniqueList_sub (fun m hm => hmem1_sub m hm) huniq⟩
      · intro t ht
        by_cases hti : t.id = team.id
        · have hone : (db.members.filter (fun m =>
              !(m.teamId == team.id && m.userId == strTrim targetRaw))).filter
                (fun m => m.teamId == team.id && m.role == "owner") ≠ [] := by
            intro hnil
            rw [hnil] at hoc
            exact hoc rfl
          obtain ⟨o, ho⟩ := List.exists_mem_of_ne_nil _ hone
          obtain ⟨ho1, ho2⟩ := List.mem_filter.mp ho
          simp only [Bool.and_eq_true, beq_iff_eq] at ho2
          exact ⟨o, ho1, ho2.1.trans hti.symm, ho2.2⟩
        · obtain ⟨mo, hmo, h1, h2⟩ := howner_survives t ht (Or.inl hti)
          exact ⟨mo, hmo, h1, h2⟩
      · intro m hm
        exact href m (hmem1_sub m hm)

/-- C1: a completed core operation (createTeam, addMember, changeRole,
removeMember, invite accept) run on a database satisfying the schema
invariant (every team has an owner member, referential integrity, unique
membership keys) yields a database that satisfies it again — and therefore
every team with at least one member still has at least one member whose
role is `owner` or `admin`. -/
theorem applyOp_preserves_invariant (db : DB) (op : Op) (hInv : Inv db) (hWf : WfOp db op) :
    Inv (applyOp db op) ∧ AdminOwnerInvariant (applyOp db op) := by
  have hinv2 : Inv (applyOp db op) := by
    cases op with
    | createTeam auth nameRaw slugBase newTeamId now =>
      exact createTeam_inv db auth nameRaw slugBase newTeamId now hInv hWf
    | addMember teamId acting email now => exact addMember_inv db teamId acting email now hInv
    | changeRole teamId acting roleInput target =>
      exact changeRole_inv db teamId acting roleInput target hInv
    | removeMember teamId acting target => exact removeMember_inv db teamId acting target hInv
    | acceptInvite token auth now => exact acceptInvite_inv db token auth now hInv
  exact ⟨hinv2, inv_adminOwner hinv2⟩

/-- C1 witness: the preservation theorem applied to the sample database and
a concrete invite-accept operation. -/
theorem applyOp_preserves_invariant_witness :
    Inv sampleDb ∧ WfOp sampleDb (Op.acceptInvite "tok" (some "u5") 9) ∧
    (Inv (applyOp sampleDb (Op.acceptInvite "tok" (some "u5") 9)) ∧
     AdminOwnerInvariant (applyOp sampleDb (Op.acceptInvite "tok" (some "u5") 9))) :=
  ⟨by unfold Inv OwnerExists MemberTeamRef InviteTeamRef MemberKeyUnique KeyUniqueList; decide,
   by trivial,
   applyOp_preserves_invariant sampleDb (Op.acceptInvite "tok" (some "u5") 9)
     (by unfold Inv OwnerExists MemberTeamRef InviteTeamRef MemberKeyUnique KeyUniqueList; decide)
     (by trivial)⟩

end Teams
